import Mathlib

/-!
Verification of the GTFS preprocessing pipeline of `open_bus_signage`
(`src/python/preprocess_gtfs.py`).

The pipeline is shallowly embedded: pandas DataFrames become lists of row
structures, a pandas cell becomes a `Value` (a string, a number, or NaN),
Python `defaultdict` accumulators become association lists whose update
operations materialize missing keys, and the only statement of the program
that can raise on well-formed tables (the eager `astype(int)` over the
`pickup_type` column) is modelled with `Except`.

Dates are modelled as day numbers (`Nat`) with day `0` a Monday, so that
Python's `date.weekday()` becomes `d % 7` and `pd.date_range(start, end)`
becomes the inclusive list of day numbers; the `YYYY-MM-DD` string key of a
date is represented by the day number itself (the formatting is injective).
-/

namespace OpenBusSignage

/-- A pandas cell value: a string, an integral number, or NaN (missing). -/
inductive Value where
  | s (v : String)
  | n (v : Int)
  | null
deriving DecidableEq, Repr

/-- Model of `pd.isna` on a single cell. -/
def pdIsna : Value → Bool
  | .null => true
  | _ => false

/-- Model of Python `str()` applied to a cell. -/
def pyStr : Value → String
  | .s v => v
  | .n v => toString v
  | .null => "nan"

/-- First-match lookup in an association list (Python dict access). -/
def alookup {α β : Type} [DecidableEq α] : List (α × β) → α → Option β
  | [], _ => none
  | kv :: rest, k => if kv.1 = k then some kv.2 else alookup rest k

/-! ## Calendar resolver (`_process_calendar_data`) -/

/-- One row of `calendar.txt` as iterated by `_process_calendar_data`. -/
structure CalendarRow where
  service_id : String
  start_date : Nat
  end_date : Nat
  monday : Bool
  tuesday : Bool
  wednesday : Bool
  thursday : Bool
  friday : Bool
  saturday : Bool
  sunday : Bool
deriving DecidableEq, Repr

/-- One row of `calendar_dates.txt`. -/
structure CalendarDateRow where
  service_id : String
  date : Nat
  exception_type : Int
deriving DecidableEq, Repr

/-- The `valid_days` list built by the source, indexed by `date.weekday()`. -/
def validDays (r : CalendarRow) : List Bool :=
  [r.monday, r.tuesday, r.wednesday, r.thursday, r.friday, r.saturday, r.sunday]

/-- Python `date.weekday()` on a day number: day 0 is a Monday. -/
def weekday (d : Nat) : Nat := d % 7

/-- `pd.date_range(start, end)`: every day in the inclusive range,
empty when `e < s`. -/
def dateRange (s e : Nat) : List Nat := (List.range (e + 1 - s)).map (· + s)

abbrev ServicePair := String × String

/-- A Python `set` of service pairs, modelled as a duplicate-free list in
insertion order (iteration order of the set is unspecified by the spec and
treated purely as a set by every theorem below). -/
abbrev PySet := List ServicePair

/-- Python `set.add`: a no-op when the element is already present. -/
def sadd (x : ServicePair) (s : PySet) : PySet :=
  if x ∈ s then s else s ++ [x]

/-- Python `set.discard`: removes the element, a no-op when absent. -/
def sdiscard (x : ServicePair) (s : PySet) : PySet :=
  s.filter (fun y => y ≠ x)

/-- The `defaultdict(set)` accumulator of the calendar resolver: an
association list from date to set, remembering which keys were materialized. -/
abbrev CalMap := List (Nat × PySet)

/-- A keyed update on the `defaultdict(set)`: `calendar[k] = f(calendar[k])`
updates in place when the key exists and otherwise materializes the key,
applying `f` to the empty set. -/
def dupdate (m : CalMap) (k : Nat) (f : PySet → PySet) : CalMap :=
  if (alookup m k).isSome then
    m.map (fun kv => if kv.1 = k then (kv.1, f kv.2) else kv)
  else m ++ [(k, f [])]

/-- The set stored at key `k`, defaulting to the empty set. -/
def getSet (m : CalMap) (k : Nat) : PySet := (alookup m k).getD []

/-- Processing of one `calendar.txt` row: add `(provider, service_id)` to the
set of every date in the inclusive range whose weekday flag is true. -/
def applyCalendarRow (provider : String) (m : CalMap) (r : CalendarRow) : CalMap :=
  (dateRange r.start_date r.end_date).foldl
    (fun acc d =>
      if (validDays r).getD (weekday d) false then
        dupdate acc d (sadd (provider, r.service_id))
      else acc)
    m

/-- Processing of one `calendar_dates.txt` row: `exception_type == 1` adds the
pair, `exception_type == 2` discards it (a no-op on the set when absent). -/
def applyCalendarDateRow (provider : String) (m : CalMap) (r : CalendarDateRow) : CalMap :=
  if r.exception_type = 1 then
    dupdate m r.date (sadd (provider, r.service_id))
  else if r.exception_type = 2 then
    dupdate m r.date (sdiscard (provider, r.service_id))
  else m

/-- One `{gtfs_id, service_id}` element of the serialized calendar. -/
structure CalEntry where
  gtfs_id : String
  service_id : String
deriving DecidableEq, Repr

/-- The set-to-list conversion performed when the resolver returns. -/
def setToEntries (s : PySet) : List CalEntry :=
  s.map (fun x => { gtfs_id := x.1, service_id := x.2 })

/-- `hasattr(feed, t) and not feed.t.empty`: the table is present and
nonempty. -/
def tableExists {α : Type} : Option (List α) → Bool
  | some (_ :: _) => true
  | _ => false

/-- `_process_calendar_data`: resolve one provider's calendar into a mapping
from date to the list of active `(gtfs_id, service_id)` entries. -/
def processCalendarData (cal : Option (List CalendarRow))
    (cds : Option (List CalendarDateRow)) (provider : String) :
    List (Nat × List CalEntry) :=
  if !(tableExists cal) && !(tableExists cds) then []
  else
    let m0 : CalMap := []
    let m1 := if tableExists cal then (cal.getD []).foldl (applyCalendarRow provider) m0 else m0
    let m2 := if tableExists cds then (cds.getD []).foldl (applyCalendarDateRow provider) m1 else m1
    m2.map (fun kv => (kv.1, setToEntries kv.2))

/-- The `defaultdict(list)` keyed extend used by the final merge:
`calendar[k].extend(v)` materializes the key when absent. -/
def dextendCal (m : List (Nat × List CalEntry)) (k : Nat) (v : List CalEntry) :
    List (Nat × List CalEntry) :=
  if (alookup m k).isSome then
    m.map (fun kv => if kv.1 = k then (kv.1, kv.2 ++ v) else kv)
  else m ++ [(k, v)]

/-- The calendar half of `process_gtfs_data`: for each provider in configured
order, resolve its calendar and extend the global date-keyed mapping. -/
def processGtfsCalendar (providers : List String)
    (cals : String → Option (List CalendarRow))
    (cdss : String → Option (List CalendarDateRow)) : List (Nat × List CalEntry) :=
  providers.foldl
    (fun acc provider =>
      (processCalendarData (cals provider) (cdss provider) provider).foldl
        (fun a kv => dextendCal a kv.1 kv.2) acc)
    []

/-! ## Translation resolver (`_get_translation`) -/

/-- One row of `translations.txt`; `record_id` and `field_value` are raw
cells, the translated text is read out as a string. -/
structure TranslationRow where
  table_name : String
  field_name : String
  language : String
  record_id : Value
  field_value : Value
  translation : String
deriving DecidableEq, Repr

/-- The primary boolean mask of `_get_translation`: matching `table_name`,
`field_name`, `language` and `record_id == identifier`. -/
def primaryPred (table_name field_name language : String) (ident : Value)
    (t : TranslationRow) : Bool :=
  decide (t.table_name = table_name ∧ t.field_name = field_name ∧
    t.language = language ∧ t.record_id = ident)

/-- The fallback boolean mask of `_get_translation`: matching `table_name`,
`field_name`, `language` and `field_value == str(identifier)`. -/
def fallbackPred (table_name field_name language : String) (ident : Value)
    (t : TranslationRow) : Bool :=
  decide (t.table_name = table_name ∧ t.field_name = field_name ∧
    t.language = language ∧ t.field_value = Value.s (pyStr ident))

/-- `_get_translation`: empty-table guard, primary `record_id` mask, fallback
`field_value == str(identifier)` mask, first matching row in table order. -/
def getTranslation (translations : Option (List TranslationRow))
    (table_name field_name language : String) (ident : Value) : String :=
  match translations with
  | none => ""
  | some rows =>
    if rows.isEmpty then ""
    else
      let primary := rows.filter (primaryPred table_name field_name language ident)
      let matched :=
        if primary.isEmpty then
          rows.filter (fallbackPred table_name field_name language ident)
        else primary
      match matched with
      | [] => ""
      | t :: _ => t.translation

/-- The translation lookup as the spec words it: a missing or empty table
always yields the empty string; a row is first sought by record identifier,
and only if that yields no row by field value against the string form of the
identifier; the first row in source order wins; otherwise the empty string. -/
def specTranslation (translations : Option (List TranslationRow))
    (table_name field_name language : String) (ident : Value) : String :=
  match translations with
  | none => ""
  | some rows =>
    match rows.find? (primaryPred table_name field_name language ident) with
    | some t => t.translation
    | none =>
      match rows.find? (fallbackPred table_name field_name language ident) with
      | some t => t.translation
      | none => ""

/-! ## Departure extraction (`_process_stop_departures`,
`_create_departure_record`) -/

/-- One row of `stop_times.txt` as used by the extractor; `stop_headsign` is
`none` when the column is absent from the row or the cell is NaN. -/
structure StopTimeRow where
  trip_id : String
  stop_id : String
  departure_time : Value
  pickup_type : Option Int
  stop_headsign : Option String
deriving DecidableEq, Repr

/-- One row of `trips.txt`; optional cells are `none` when NaN. -/
structure TripRow where
  trip_id : String
  route_id : String
  service_id : Option String
  trip_headsign : Option String
deriving DecidableEq, Repr

/-- One row of `routes.txt`; optional cells are `none` when NaN. -/
structure RouteRow where
  route_id : String
  route_short_name : Option String
  route_long_name : Option String
  route_color : Option String
  route_text_color : Option String
deriving DecidableEq, Repr

/-- The `trips` table: its rows plus the table-level presence of the optional
columns tested with `'col' in df.columns`. -/
structure TripsTable where
  rows : List TripRow
  hasTripHeadsign : Bool
  hasServiceId : Bool
deriving Repr

/-- The `routes` table with its optional-column presence flags. -/
structure RoutesTable where
  rows : List RouteRow
  hasShortName : Bool
  hasLongName : Bool
  hasColor : Bool
  hasTextColor : Bool
deriving Repr

/-- One provider's loaded feed (the partridge feed object). -/
structure Feed where
  stop_times : List StopTimeRow
  trips : TripsTable
  routes : RoutesTable
deriving Repr

/-- One output departure record. Every field holds the cell value that is
serialized to JSON: the eight fields the source wraps in `str(...)` are
built as `Value.s` strings, while `departure_time` is passed through
feed-native. -/
structure DepartureRecord where
  departure_time : Value
  route_name : Value
  route_name_en : Value
  route_color : Value
  route_text_color : Value
  headsign : Value
  headsign_en : Value
  gtfs_id : Value
  service_id : Value
deriving DecidableEq, Repr

/-- The headsign fallback of `_create_departure_record`: the row's own
`stop_headsign` when present, non-NaN and non-empty; else the trip's
`trip_headsign` when that column exists (NaN collapsing to the empty
string); else the empty string. -/
def resolveHeadsign (row : StopTimeRow) (hasTripHeadsign : Bool) (trip : TripRow) : String :=
  let fb := if hasTripHeadsign then trip.trip_headsign.getD "" else ""
  match row.stop_headsign with
  | some h => if h = "" then fb else h
  | none => fb

/-- The route-name fallback: `route_short_name` when the column exists and
the cell is non-NaN and non-empty, else `route_long_name` (NaN and missing
column collapsing to the empty string). -/
def resolveRouteName (routes : RoutesTable) (route : RouteRow) : String :=
  let short := if routes.hasShortName then route.route_short_name.getD "" else ""
  if short = "" then (if routes.hasLongName then route.route_long_name.getD "" else "") else short

/-- `_create_departure_record`: build one departure record from a stop_times
row and the first matching trip and route rows. -/
def mkRecord (row : StopTimeRow) (trips : TripsTable) (trip : TripRow)
    (routes : RoutesTable) (route : RouteRow) (provider : String)
    (translations : Option (List TranslationRow)) : DepartureRecord :=
  let headsign := resolveHeadsign row trips.hasTripHeadsign trip
  let route_name := resolveRouteName routes route
  let route_color := if routes.hasColor then route.route_color.getD "" else ""
  let route_text_color := if routes.hasTextColor then route.route_text_color.getD "" else ""
  let service_id := if trips.hasServiceId then trip.service_id.getD "" else ""
  let route_name_en := getTranslation translations "routes" "route_long_name" "en" (Value.s trip.route_id)
  let headsign_en := getTranslation translations "stop_times" "stop_headsign" "en" (Value.s headsign)
  { departure_time := row.departure_time
    route_name := .s route_name
    route_name_en := .s route_name_en
    route_color := .s route_color
    route_text_color := .s route_text_color
    headsign := .s headsign
    headsign_en := .s headsign_en
    gtfs_id := .s provider
    service_id := .s service_id }

/-- The per-row boolean mask of the stop_times selection:
`stop_id == sid and (pickup_type is NaN or int(pickup_type) == 0)`. -/
def stopMask (sid : String) (r : StopTimeRow) : Bool :=
  decide (r.stop_id = sid) && (r.pickup_type.isNone || decide (r.pickup_type = some 0))

/-- The two silent joins of the extraction loop: the first `trips` row with
the row's `trip_id`, then the first `routes` row with that trip's
`route_id`; `none` when either join finds no row. -/
def joinBuild (feed : Feed) (provider : String)
    (translations : Option (List TranslationRow)) (row : StopTimeRow) :
    Option DepartureRecord :=
  match feed.trips.rows.filter (fun t => decide (t.trip_id = row.trip_id)) with
  | [] => none
  | trip :: _ =>
    match feed.routes.rows.filter (fun rt => decide (rt.route_id = trip.route_id)) with
    | [] => none
    | route :: _ => some (mkRecord row feed.trips trip feed.routes route provider translations)

/-- The `for _, row in stop_times.iterrows()` loop, with the pre-restricted
`trips` and `routes` frames passed in. -/
def extractLoop (feed : Feed) (trips : List TripRow) (routes : List RouteRow)
    (provider : String) (translations : Option (List TranslationRow)) :
    List StopTimeRow → List DepartureRecord
  | [] => []
  | row :: rest =>
    if pdIsna row.departure_time then
      extractLoop feed trips routes provider translations rest
    else
      match trips.filter (fun t => decide (t.trip_id = row.trip_id)) with
      | [] => extractLoop feed trips routes provider translations rest
      | trip :: _ =>
        match routes.filter (fun rt => decide (rt.route_id = trip.route_id)) with
        | [] => extractLoop feed trips routes provider translations rest
        | route :: _ =>
          mkRecord row feed.trips trip feed.routes route provider translations
            :: extractLoop feed trips routes provider translations rest

/-- `feed.trips[feed.trips['trip_id'].isin(stop_times['trip_id'])]`: the
trips frame restricted to the trip ids of the selected stop_times rows. -/
def restrictedTrips (feed : Feed) (sid : String) : List TripRow :=
  feed.trips.rows.filter (fun t =>
    (feed.stop_times.filter (stopMask sid)).any (fun r => decide (r.trip_id = t.trip_id)))

/-- `feed.routes[feed.routes['route_id'].isin(trips['route_id'])]`. -/
def restrictedRoutes (feed : Feed) (sid : String) : List RouteRow :=
  feed.routes.rows.filter (fun rt =>
    (restrictedTrips feed sid).any (fun t => decide (t.route_id = rt.route_id)))

/-- The body of `_process_stop_departures` for one non-null stop id, given
that the whole-column `astype(int)` conversion succeeded. -/
def processStop (feed : Feed) (provider : String)
    (translations : Option (List TranslationRow)) (sid : String) :
    List DepartureRecord :=
  let stop_times := feed.stop_times.filter (stopMask sid)
  if stop_times.isEmpty then []
  else
    extractLoop feed (restrictedTrips feed sid) (restrictedRoutes feed sid)
      provider translations stop_times

/-- `feed.stop_times['pickup_type'].astype(int)` is evaluated eagerly over
the whole column before the boolean mask is assembled; pandas raises a
`ValueError` as soon as the column contains one NaN. -/
def pickupColumnOk (feed : Feed) : Bool :=
  feed.stop_times.all (fun r => r.pickup_type.isSome)

/-- The body of `_process_stop_departures` for one non-null stop id,
including the possible `ValueError` of the eager column conversion. -/
def processStopE (feed : Feed) (provider : String)
    (translations : Option (List TranslationRow)) (sid : String) :
    Except String (List DepartureRecord) :=
  if pickupColumnOk feed then .ok (processStop feed provider translations sid)
  else .error "ValueError: cannot convert non-finite values (NA) to integer"

/-- `_process_stop_departures` over the configured stop list of one platform
and provider: a null placeholder appends an empty list and moves on. -/
def processStopDepartures (stops : List (Option String)) (feed : Feed)
    (provider : String) (translations : Option (List TranslationRow)) :
    List (List DepartureRecord) :=
  stops.map (fun st =>
    match st with
    | none => []
    | some sid => processStop feed provider translations sid)

/-- `_process_stop_departures` with the `ValueError` propagated: the loop
aborts at the first processed non-null stop of a dirty feed. -/
def processStopDeparturesE (stops : List (Option String)) (feed : Feed)
    (provider : String) (translations : Option (List TranslationRow)) :
    Except String (List (List DepartureRecord)) :=
  match stops with
  | [] => .ok []
  | none :: rest =>
    (processStopDeparturesE rest feed provider translations).map (fun l => [] :: l)
  | some sid :: rest => do
    let d ← processStopE feed provider translations sid
    let l ← processStopDeparturesE rest feed provider translations
    pure (d :: l)

/-! ## Merge/aggregation (`process_gtfs_data`, departure half) -/

abbrev DepInfo := List (String × List DepartureRecord)

abbrev PlatformConfig := List (String × List (String × Option String))

/-- `departure_info[platform].extend(records)`: an in-place list extend on an
existing key (the accumulator is seeded with every configured platform). -/
def dextendRecs (m : DepInfo) (k : String) (v : List DepartureRecord) : DepInfo :=
  m.map (fun kv => if kv.1 = k then (kv.1, kv.2 ++ v) else kv)

/-- The `for departures in gtfs_departure_info: if departures: ... extend`
loop. -/
def appendStopLists (acc : DepInfo) (k : String)
    (lists : List (List DepartureRecord)) : DepInfo :=
  lists.foldl (fun a deps => if deps.isEmpty then a else dextendRecs a k deps) acc

/-- One provider's pass over all platforms of the configuration. -/
def processProviderDepartures (cfg : PlatformConfig) (provider : String)
    (feed : Feed) (translations : Option (List TranslationRow)) (acc : DepInfo) :
    DepInfo :=
  cfg.foldl
    (fun a pc =>
      let provider_stops := (pc.2.filter (fun e => decide (e.1 = provider))).map Prod.snd
      if provider_stops.isEmpty then a
      else appendStopLists a pc.1 (processStopDepartures provider_stops feed provider translations))
    acc

/-- One provider's pass with the `ValueError` propagated. -/
def processProviderDeparturesE (cfg : PlatformConfig) (provider : String)
    (feed : Feed) (translations : Option (List TranslationRow)) (acc : DepInfo) :
    Except String DepInfo :=
  cfg.foldlM
    (fun a pc =>
      let provider_stops := (pc.2.filter (fun e => decide (e.1 = provider))).map Prod.snd
      if provider_stops.isEmpty then pure a
      else (processStopDeparturesE provider_stops feed provider translations).map
        (fun lists => appendStopLists a pc.1 lists))
    acc

/-- `departure_info = {platform: [] for platform in config}`. -/
def initDepInfo (cfg : PlatformConfig) : DepInfo := cfg.map (fun pc => (pc.1, []))

/-- The departure half of `process_gtfs_data`: providers in configured order,
each extending the platform-keyed accumulator. -/
def processGtfsDepartureInfo (providers : List String) (cfg : PlatformConfig)
    (feeds : String → Feed) (trs : String → Option (List TranslationRow)) :
    DepInfo :=
  providers.foldl
    (fun acc provider =>
      processProviderDepartures cfg provider (feeds provider) (trs provider) acc)
    (initDepInfo cfg)

/-- The departure half of `process_gtfs_data` with the `ValueError`
propagated (an uncaught exception aborts the whole run). -/
def processGtfsDepartureInfoE (providers : List String) (cfg : PlatformConfig)
    (feeds : String → Feed) (trs : String → Option (List TranslationRow)) :
    Except String DepInfo :=
  providers.foldlM
    (fun acc provider =>
      processProviderDeparturesE cfg provider (feeds provider) (trs provider) acc)
    (initDepInfo cfg)

/-- The stop_times rows the spec says contribute departures for a stop:
matching stop id, regular pickup, a departure time recorded. -/
def selectedRows (feed : Feed) (sid : String) : List StopTimeRow :=
  feed.stop_times.filter (fun r => stopMask sid r && !(pdIsna r.departure_time))

/-- The records one provider contributes to one platform, as the spec words
it: the platform's configured pairs filtered to this provider, each stop in
configured order, null placeholders contributing nothing. -/
def providerPlatformRecords (provider : String) (feed : Feed)
    (translations : Option (List TranslationRow))
    (stops : List (String × Option String)) : List DepartureRecord :=
  ((stops.filter (fun e => decide (e.1 = provider))).map
    (fun e =>
      match e.2 with
      | none => []
      | some sid => processStop feed provider translations sid)).flatten

/-- The whole per-platform list the spec describes: concatenation over the
configured providers in order. -/
def platformRecords (providers : List String) (feeds : String → Feed)
    (trs : String → Option (List TranslationRow))
    (stops : List (String × Option String)) : List DepartureRecord :=
  (providers.map (fun provider =>
    providerPlatformRecords provider (feeds provider) (trs provider) stops)).flatten

/-! ## Spec-side definitions for the refinement claims -/

/-- The headsign rule as the spec words it: the stop_times row's own
headsign when non-empty, else the trip's headsign when that column exists,
else the empty string (a NaN cell standing for the empty string). -/
def specHeadsign (row : StopTimeRow) (trips : TripsTable) (trip : TripRow) : String :=
  match row.stop_headsign with
  | some h =>
    if h ≠ "" then h
    else if trips.hasTripHeadsign then trip.trip_headsign.getD "" else ""
  | none => if trips.hasTripHeadsign then trip.trip_headsign.getD "" else ""

/-- The route-name rule as the spec words it: the route's short name when
non-empty, else the route's long name, else the empty string. -/
def specRouteName (routes : RoutesTable) (route : RouteRow) : String :=
  let short := if routes.hasShortName then route.route_short_name.getD "" else ""
  let long := if routes.hasLongName then route.route_long_name.getD "" else ""
  if short ≠ "" then short else long

/-- Whether a cell holds a string. -/
def isStr : Value → Bool
  | .s _ => true
  | _ => false

/-- The spec's string contract on one record, as claimed: every one of the
nine fields is a string (and hence never null). -/
def specAllFieldsString (rec : DepartureRecord) : Prop :=
  isStr rec.departure_time = true ∧ isStr rec.route_name = true ∧
    isStr rec.route_name_en = true ∧ isStr rec.route_color = true ∧
    isStr rec.route_text_color = true ∧ isStr rec.headsign = true ∧
    isStr rec.headsign_en = true ∧ isStr rec.gtfs_id = true ∧
    isStr rec.service_id = true

/-- The amended string contract: the eight `str(...)`-wrapped fields are
strings, and `departure_time` is never null (its NaN rows are skipped) but
is passed through feed-native. -/
def amendedStringContract (rec : DepartureRecord) : Prop :=
  isStr rec.route_name = true ∧ isStr rec.route_name_en = true ∧
    isStr rec.route_color = true ∧ isStr rec.route_text_color = true ∧
    isStr rec.headsign = true ∧ isStr rec.headsign_en = true ∧
    isStr rec.gtfs_id = true ∧ isStr rec.service_id = true ∧
    rec.departure_time ≠ Value.null

/-! ## Concrete example data -/

/-- A one-row trips table shared by the example feeds. -/
def exampleTrips : TripsTable :=
  { rows := [{ trip_id := "T1", route_id := "R1", service_id := some "WD",
               trip_headsign := some "City Hall" }],
    hasTripHeadsign := true, hasServiceId := true }

/-- A one-row routes table shared by the example feeds. -/
def exampleRoutes : RoutesTable :=
  { rows := [{ route_id := "R1", route_short_name := some "1",
               route_long_name := some "Main Line", route_color := none,
               route_text_color := none }],
    hasShortName := true, hasLongName := true, hasColor := true,
    hasTextColor := true }

/-- The spec's stop_times example: a row with departure time `25:10:00` and
no pickup_type, next to an otherwise-identical row with `pickup_type = 1`. -/
def feedBlankPickup : Feed :=
  { stop_times :=
      [{ trip_id := "T1", stop_id := "S1", departure_time := .s "25:10:00",
         pickup_type := none, stop_headsign := none },
       { trip_id := "T1", stop_id := "S1", departure_time := .s "25:10:00",
         pickup_type := some 1, stop_headsign := none }],
    trips := exampleTrips, routes := exampleRoutes }

/-- The same example with the pickup_type column fully populated
(`0` standing for regular boarding). -/
def feedClean : Feed :=
  { stop_times :=
      [{ trip_id := "T1", stop_id := "S1", departure_time := .s "25:10:00",
         pickup_type := some 0, stop_headsign := none },
       { trip_id := "T1", stop_id := "S1", departure_time := .s "25:10:00",
         pickup_type := some 1, stop_headsign := none }],
    trips := exampleTrips, routes := exampleRoutes }

/-- A feed whose departure_time cell is numeric: partridge loads GTFS times
as seconds past midnight, so `25:10:00` arrives as the number `90600`. -/
def feedNumericTime : Feed :=
  { stop_times :=
      [{ trip_id := "T1", stop_id := "S1", departure_time := .n 90600,
         pickup_type := some 0, stop_headsign := none }],
    trips := exampleTrips, routes := exampleRoutes }

/-- The record the extractor builds from the clean example feed. -/
def recCityHall : DepartureRecord :=
  { departure_time := .s "25:10:00", route_name := .s "1", route_name_en := .s "",
    route_color := .s "", route_text_color := .s "", headsign := .s "City Hall",
    headsign_en := .s "", gtfs_id := .s "A", service_id := .s "WD" }

/-- The record the extractor builds from the numeric-time example feed. -/
def recNumericTime : DepartureRecord :=
  { departure_time := .n 90600, route_name := .s "1", route_name_en := .s "",
    route_color := .s "", route_text_color := .s "", headsign := .s "City Hall",
    headsign_en := .s "", gtfs_id := .s "A", service_id := .s "WD" }

/-! ## Association-list lemmas -/

theorem alookup_eq_none_iff {α β : Type} [DecidableEq α] (m : List (α × β)) (k : α) :
    alookup m k = none ↔ k ∉ m.map Prod.fst := by
  induction m with
  | nil => simp [alookup]
  | cons kv rest ih =>
    by_cases h : kv.1 = k
    · simp [alookup, h]
    · have h' : ¬ k = kv.1 := fun hh => h hh.symm
      simp [alookup, h, h', ih]

theorem alookup_append_single {α β : Type} [DecidableEq α] (m : List (α × β)) (k : α)
    (kv : α × β) :
    alookup (m ++ [kv]) k =
      match alookup m k with
      | some v => some v
      | none => if kv.1 = k then some kv.2 else none := by
  induction m with
  | nil => simp [alookup]
  | cons a rest ih => by_cases h : a.1 = k <;> simp [alookup, h, ih]

theorem alookup_map_ite {α β : Type} [DecidableEq α] (m : List (α × β)) (k j : α) (f : β → β) :
    alookup (m.map (fun kv => if kv.1 = k then (kv.1, f kv.2) else kv)) j =
      if j = k then (alookup m k).map f else alookup m j := by
  induction m with
  | nil => simp [alookup]
  | cons a rest ih =>
    by_cases hak : a.1 = k
    · subst hak
      by_cases haj : a.1 = j
      · subst haj
        simp [alookup]
      · have hja : ¬ j = a.1 := fun h => haj h.symm
        simp [alookup, haj, hja, ih]
    · by_cases haj : a.1 = j
      · subst haj
        have hja : ¬ a.1 = k := hak
        simp [alookup, hja]
      · simp [alookup, hak, haj, ih]

theorem alookup_map_value {α β γ : Type} [DecidableEq α] (m : List (α × β)) (j : α)
    (g : β → γ) :
    alookup (m.map (fun kv => (kv.1, g kv.2))) j = (alookup m j).map g := by
  induction m with
  | nil => simp [alookup]
  | cons a rest ih => by_cases h : a.1 = j <;> simp [alookup, h, ih]

theorem alookup_mem {α β : Type} [DecidableEq α] {m : List (α × β)} {k : α} {v : β}
    (h : alookup m k = some v) : (k, v) ∈ m := by
  induction m with
  | nil => simp [alookup] at h
  | cons a rest ih =>
    obtain ⟨a1, a2⟩ := a
    simp only [alookup] at h
    by_cases hk : a1 = k
    · rw [if_pos hk] at h
      injection h with hv
      subst hv
      subst hk
      exact List.mem_cons_self _ _
    · rw [if_neg hk] at h
      exact List.mem_cons_of_mem _ (ih h)

/-! ## `defaultdict` update lemmas -/

theorem alookup_dupdate (m : CalMap) (k j : Nat) (f : PySet → PySet) :
    alookup (dupdate m k f) j =
      if j = k then some (f (getSet m k)) else alookup m j := by
  unfold dupdate
  by_cases h : (alookup m k).isSome
  · rw [if_pos h, alookup_map_ite]
    obtain ⟨v, hv⟩ := Option.isSome_iff_exists.mp h
    simp [getSet, hv]
  · rw [if_neg h, alookup_append_single]
    have hnone : alookup m k = none := Option.not_isSome_iff_eq_none.mp h
    by_cases hjk : j = k
    · subst hjk
      simp [hnone, getSet]
    · have hkj : ¬ k = j := fun hh => hjk hh.symm
      cases hmj : alookup m j
      · simp [if_neg hjk, hkj, hmj]
      · simp [if_neg hjk, hmj]

theorem getSet_dupdate (m : CalMap) (k j : Nat) (f : PySet → PySet) :
    getSet (dupdate m k f) j = if j = k then f (getSet m k) else getSet m j := by
  by_cases h : j = k <;> simp [getSet, alookup_dupdate, h]

theorem alookup_dextendCal (m : List (Nat × List CalEntry)) (k j : Nat) (v : List CalEntry) :
    alookup (dextendCal m k v) j =
      if j = k then some ((alookup m k).getD [] ++ v) else alookup m j := by
  unfold dextendCal
  by_cases h : (alookup m k).isSome
  · rw [if_pos h]
    have hmap := alookup_map_ite m k j (fun l => l ++ v)
    simp only [] at hmap
    rw [hmap]
    obtain ⟨w, hw⟩ := Option.isSome_iff_exists.mp h
    simp [hw]
  · rw [if_neg h, alookup_append_single]
    have hnone : alookup m k = none := Option.not_isSome_iff_eq_none.mp h
    by_cases hjk : j = k
    · subst hjk
      simp [hnone]
    · have hkj : ¬ k = j := fun hh => hjk hh.symm
      cases hmj : alookup m j
      · simp [if_neg hjk, hkj, hmj]
      · simp [if_neg hjk, hmj]

theorem alookup_dextendRecs (m : DepInfo) (k j : String) (v : List DepartureRecord) :
    alookup (dextendRecs m k v) j =
      if j = k then (alookup m k).map (fun l => l ++ v) else alookup m j := by
  unfold dextendRecs
  have hmap := alookup_map_ite m k j (fun l => l ++ v)
  simp only [] at hmap
  rw [hmap]

/-! ## Python-set lemmas -/

theorem mem_sadd (x y : ServicePair) (s : PySet) : y ∈ sadd x s ↔ y = x ∨ y ∈ s := by
  unfold sadd
  by_cases h : x ∈ s
  · simp [h]
    intro hyx
    rw [hyx]
    exact h
  · simp [h, List.mem_append, or_comm]

theorem mem_sdiscard (x y : ServicePair) (s : PySet) :
    y ∈ sdiscard x s ↔ y ≠ x ∧ y ∈ s := by
  unfold sdiscard
  simp [List.mem_filter, and_comm]

theorem sdiscard_of_not_mem (x : ServicePair) (s : PySet) (h : x ∉ s) :
    sdiscard x s = s := by
  unfold sdiscard
  rw [List.filter_eq_self]
  intro a ha
  simp
  exact fun hax => h (hax ▸ ha)

/-! ## Calendar resolver lemmas -/

theorem mem_dateRange (s e d : Nat) : d ∈ dateRange s e ↔ s ≤ d ∧ d ≤ e := by
  simp only [dateRange, List.mem_map, List.mem_range]
  constructor
  · rintro ⟨a, ha, rfl⟩
    omega
  · intro h
    exact ⟨d - s, by omega, by omega⟩

theorem dateRange_eq_nil (s e : Nat) (h : e < s) : dateRange s e = [] := by
  have h0 : e + 1 - s = 0 := by omega
  simp [dateRange, h0]

theorem mem_getSet_insert_fold (x y : ServicePair) (cond : Nat → Bool) (ds : List Nat)
    (m : CalMap) (d : Nat) :
    y ∈ getSet (ds.foldl
        (fun acc d' => if cond d' then dupdate acc d' (sadd x) else acc) m) d
      ↔ (y = x ∧ d ∈ ds ∧ cond d = true) ∨ y ∈ getSet m d := by
  induction ds generalizing m with
  | nil => simp
  | cons d' rest ih =>
    rw [List.foldl_cons, ih]
    by_cases hc : cond d'
    · rw [if_pos hc]
      by_cases hd : d = d'
      · subst hd
        rw [getSet_dupdate, if_pos rfl, mem_sadd]
        simp [hc]
        tauto
      · rw [getSet_dupdate, if_neg hd]
        simp only [List.mem_cons]
        constructor
        · tauto
        · rintro (⟨h1, h2 | h2, h3⟩ | h) <;> tauto
    · rw [if_neg hc]
      simp only [List.mem_cons]
      constructor
      · tauto
      · rintro (⟨h1, h2 | h2, h3⟩ | h)
        · exact absurd h3 (by simp [h2, hc])
        · tauto
        · tauto

theorem mem_getSet_applyCalendarRow (provider : String) (r : CalendarRow)
    (y : ServicePair) (m : CalMap) (d : Nat) :
    y ∈ getSet (applyCalendarRow provider m r) d
      ↔ (y = (provider, r.service_id) ∧ d ∈ dateRange r.start_date r.end_date ∧
          (validDays r).getD (weekday d) false = true)
        ∨ y ∈ getSet m d := by
  have h := mem_getSet_insert_fold (provider, r.service_id) y
    (fun d' => (validDays r).getD (weekday d') false)
    (dateRange r.start_date r.end_date) m d
  simp only [] at h
  exact h

theorem mem_getSet_calRows_fold (provider : String) (rows : List CalendarRow)
    (y : ServicePair) (m : CalMap) (d : Nat) :
    y ∈ getSet (rows.foldl (applyCalendarRow provider) m) d
      ↔ (∃ r ∈ rows, y = (provider, r.service_id) ∧
          d ∈ dateRange r.start_date r.end_date ∧
          (validDays r).getD (weekday d) false = true)
        ∨ y ∈ getSet m d := by
  induction rows generalizing m with
  | nil => simp
  | cons r rest ih =>
    rw [List.foldl_cons, ih, mem_getSet_applyCalendarRow]
    simp only [List.exists_mem_cons_iff]
    constructor
    · rintro (h | h | h)
      · exact Or.inl (Or.inr h)
      · exact Or.inl (Or.inl h)
      · exact Or.inr h
    · rintro ((h | h) | h)
      · exact Or.inr (Or.inl h)
      · exact Or.inl h
      · exact Or.inr (Or.inr h)

theorem alookup_insert_fold_untouched (x : ServicePair) (cond : Nat → Bool)
    (ds : List Nat) (m : CalMap) (d : Nat)
    (h : ∀ d' ∈ ds, cond d' = true → d' ≠ d) :
    alookup (ds.foldl
        (fun acc d' => if cond d' then dupdate acc d' (sadd x) else acc) m) d
      = alookup m d := by
  induction ds generalizing m with
  | nil => rfl
  | cons d' rest ih =>
    rw [List.foldl_cons]
    by_cases hc : cond d'
    · rw [if_pos hc, ih _ (fun a ha hca => h a (List.mem_cons_of_mem _ ha) hca)]
      rw [alookup_dupdate, if_neg]
      intro hdd
      exact h d' (List.mem_cons_self _ _) hc hdd.symm
    · rw [if_neg hc]
      exact ih _ (fun a ha hca => h a (List.mem_cons_of_mem _ ha) hca)

theorem alookup_applyCalendarRow_untouched (provider : String) (r : CalendarRow)
    (m : CalMap) (d : Nat)
    (h : ∀ d' ∈ dateRange r.start_date r.end_date,
      (validDays r).getD (weekday d') false = true → d' ≠ d) :
    alookup (applyCalendarRow provider m r) d = alookup m d := by
  have hh := alookup_insert_fold_untouched (provider, r.service_id)
    (fun d' => (validDays r).getD (weekday d') false)
    (dateRange r.start_date r.end_date) m d h
  simp only [] at hh
  exact hh

theorem alookup_calRows_fold_untouched (provider : String) (rows : List CalendarRow)
    (m : CalMap) (d : Nat)
    (h : ∀ r ∈ rows, ∀ d' ∈ dateRange r.start_date r.end_date,
      (validDays r).getD (weekday d') false = true → d' ≠ d) :
    alookup (rows.foldl (applyCalendarRow provider) m) d = alookup m d := by
  induction rows generalizing m with
  | nil => rfl
  | cons r rest ih =>
    rw [List.foldl_cons,
      ih _ (fun a ha => h a (List.mem_cons_of_mem _ ha)),
      alookup_applyCalendarRow_untouched provider r m d (h r (List.mem_cons_self _ _))]

theorem alookup_applyCalendarDateRow_ne (provider : String) (m : CalMap)
    (c : CalendarDateRow) (d : Nat) (h : ¬ d = c.date) :
    alookup (applyCalendarDateRow provider m c) d = alookup m d := by
  unfold applyCalendarDateRow
  by_cases h1 : c.exception_type = 1
  · rw [if_pos h1, alookup_dupdate, if_neg h]
  · rw [if_neg h1]
    by_cases h2 : c.exception_type = 2
    · rw [if_pos h2, alookup_dupdate, if_neg h]
    · rw [if_neg h2]

theorem alookup_applyCalendarDateRow_two (provider : String) (m : CalMap)
    (c : CalendarDateRow) (h : c.exception_type = 2) :
    alookup (applyCalendarDateRow provider m c) c.date
      = some (sdiscard (provider, c.service_id) (getSet m c.date)) := by
  unfold applyCalendarDateRow
  rw [if_neg (by rw [h]; decide), if_pos h, alookup_dupdate, if_pos rfl]

theorem cds_fold_keeps_empty (provider : String) (rows : List CalendarDateRow)
    (d : Nat) (m : CalMap)
    (h2 : ∀ c ∈ rows, c.date = d → c.exception_type = 2)
    (hm : alookup m d = some []) :
    alookup (rows.foldl (applyCalendarDateRow provider) m) d = some [] := by
  induction rows generalizing m with
  | nil => exact hm
  | cons c rest ih =>
    rw [List.foldl_cons]
    apply ih _ (fun a ha => h2 a (List.mem_cons_of_mem _ ha))
    by_cases hdc : d = c.date
    · subst hdc
      rw [alookup_applyCalendarDateRow_two provider m c
        (h2 c (List.mem_cons_self _ _) rfl)]
      have hempty : getSet m c.date = [] := by simp [getSet, hm]
      rw [hempty]
      rfl
    · rw [alookup_applyCalendarDateRow_ne provider m c d hdc]
      exact hm

theorem cds_fold_materializes (provider : String) (rows : List CalendarDateRow)
    (d : Nat) (m : CalMap)
    (h2 : ∀ c ∈ rows, c.date = d → c.exception_type = 2)
    (hm : alookup m d = none)
    (hex : ∃ c ∈ rows, c.date = d) :
    alookup (rows.foldl (applyCalendarDateRow provider) m) d = some [] := by
  induction rows generalizing m with
  | nil => simp at hex
  | cons c rest ih =>
    rw [List.foldl_cons]
    by_cases hdc : d = c.date
    · subst hdc
      apply cds_fold_keeps_empty provider rest _ _
        (fun a ha => h2 a (List.mem_cons_of_mem _ ha))
      rw [alookup_applyCalendarDateRow_two provider m c
        (h2 c (List.mem_cons_self _ _) rfl)]
      have hempty : getSet m c.date = [] := by simp [getSet, hm]
      rw [hempty]
      rfl
    · obtain ⟨c', hc', hcd'⟩ := hex
      rcases List.mem_cons.mp hc' with hh | hh
      · exact absurd (hh ▸ hcd') (fun he => hdc he.symm)
      · apply ih _ (fun a ha => h2 a (List.mem_cons_of_mem _ ha))
        · rw [alookup_applyCalendarDateRow_ne provider m c d hdc]
          exact hm
        · exact ⟨c', hh, hcd'⟩

theorem keys_map_ite (m : CalMap) (k : Nat) (f : PySet → PySet) :
    (m.map (fun kv => if kv.1 = k then (kv.1, f kv.2) else kv)).map Prod.fst
      = m.map Prod.fst := by
  rw [List.map_map]
  apply List.map_congr_left
  intro kv _
  by_cases h : kv.1 = k <;> simp [h]

theorem keys_map_value {α β γ : Type} (m : List (α × β)) (g : β → γ) :
    (m.map (fun kv => (kv.1, g kv.2))).map Prod.fst = m.map Prod.fst := by
  rw [List.map_map]
  apply List.map_congr_left
  intro kv _
  rfl

theorem nodup_keys_dupdate (m : CalMap) (k : Nat) (f : PySet → PySet)
    (h : (m.map Prod.fst).Nodup) : ((dupdate m k f).map Prod.fst).Nodup := by
  unfold dupdate
  by_cases hs : (alookup m k).isSome
  · rw [if_pos hs, keys_map_ite]
    exact h
  · rw [if_neg hs, List.map_append]
    have hk : k ∉ m.map Prod.fst :=
      (alookup_eq_none_iff m k).mp (Option.not_isSome_iff_eq_none.mp hs)
    simp [List.nodup_append, h, hk]

theorem nodup_keys_insert_fold (x : ServicePair) (cond : Nat → Bool)
    (ds : List Nat) (m : CalMap) (h : (m.map Prod.fst).Nodup) :
    ((ds.foldl
        (fun acc d' => if cond d' then dupdate acc d' (sadd x) else acc) m).map
      Prod.fst).Nodup := by
  induction ds generalizing m with
  | nil => exact h
  | cons d' rest ih =>
    rw [List.foldl_cons]
    by_cases hc : cond d'
    · rw [if_pos hc]
      exact ih _ (nodup_keys_dupdate m d' _ h)
    · rw [if_neg hc]
      exact ih _ h

theorem nodup_keys_applyCalendarRow (provider : String) (r : CalendarRow) (m : CalMap)
    (h : (m.map Prod.fst).Nodup) :
    ((applyCalendarRow provider m r).map Prod.fst).Nodup := by
  have hh := nodup_keys_insert_fold (provider, r.service_id)
    (fun d' => (validDays r).getD (weekday d') false)
    (dateRange r.start_date r.end_date) m h
  simp only [] at hh
  exact hh

theorem nodup_keys_calRows_fold (provider : String) (rows : List CalendarRow)
    (m : CalMap) (h : (m.map Prod.fst).Nodup) :
    ((rows.foldl (applyCalendarRow provider) m).map Prod.fst).Nodup := by
  induction rows generalizing m with
  | nil => exact h
  | cons r rest ih =>
    rw [List.foldl_cons]
    exact ih _ (nodup_keys_applyCalendarRow provider r m h)

theorem nodup_keys_applyCalendarDateRow (provider : String) (c : CalendarDateRow)
    (m : CalMap) (h : (m.map Prod.fst).Nodup) :
    ((applyCalendarDateRow provider m c).map Prod.fst).Nodup := by
  unfold applyCalendarDateRow
  by_cases h1 : c.exception_type = 1
  · rw [if_pos h1]
    exact nodup_keys_dupdate m c.date _ h
  · rw [if_neg h1]
    by_cases h2 : c.exception_type = 2
    · rw [if_pos h2]
      exact nodup_keys_dupdate m c.date _ h
    · rw [if_neg h2]
      exact h

theorem nodup_keys_cds_fold (provider : String) (rows : List CalendarDateRow)
    (m : CalMap) (h : (m.map Prod.fst).Nodup) :
    ((rows.foldl (applyCalendarDateRow provider) m).map Prod.fst).Nodup := by
  induction rows generalizing m with
  | nil => exact h
  | cons c rest ih =>
    rw [List.foldl_cons]
    exact ih _ (nodup_keys_applyCalendarDateRow provider c m h)

theorem nodup_keys_processCalendarData (cal : Option (List CalendarRow))
    (cds : Option (List CalendarDateRow)) (provider : String) :
    ((processCalendarData cal cds provider).map Prod.fst).Nodup := by
  unfold processCalendarData
  by_cases hg : (!(tableExists cal) && !(tableExists cds)) = true
  · rw [if_pos hg]
    exact List.nodup_nil
  · rw [if_neg hg, keys_map_value]
    by_cases hc : tableExists cds
    · rw [if_pos hc]
      apply nodup_keys_cds_fold
      by_cases hl : tableExists cal
      · rw [if_pos hl]
        exact nodup_keys_calRows_fold provider _ [] List.nodup_nil
      · rw [if_neg hl]
        exact List.nodup_nil
    · rw [if_neg hc]
      by_cases hl : tableExists cal
      · rw [if_pos hl]
        exact nodup_keys_calRows_fold provider _ [] List.nodup_nil
      · rw [if_neg hl]
        exact List.nodup_nil

theorem mergeCal_fold_append (percal acc : List (Nat × List CalEntry))
    (hnd : (percal.map Prod.fst).Nodup)
    (hdis : ∀ kv ∈ percal, alookup acc kv.1 = none) :
    percal.foldl (fun a kv => dextendCal a kv.1 kv.2) acc = acc ++ percal := by
  induction percal generalizing acc with
  | nil => simp
  | cons kv rest ih =>
    obtain ⟨k, v⟩ := kv
    rw [List.foldl_cons]
    have hnone : alookup acc k = none := hdis (k, v) (List.mem_cons_self _ _)
    have hstep : dextendCal acc k v = acc ++ [(k, v)] := by
      unfold dextendCal
      rw [if_neg (by simp [hnone])]
    rw [hstep]
    have hk : k ∉ rest.map Prod.fst := by
      rw [List.map_cons] at hnd
      exact (List.nodup_cons.mp hnd).1
    rw [ih (acc ++ [(k, v)]) (List.nodup_cons.mp (List.map_cons Prod.fst _ _ ▸ hnd)).2]
    · rw [List.append_assoc]
      rfl
    · intro kv' hkv'
      rw [alookup_append_single, hdis kv' (List.mem_cons_of_mem _ hkv')]
      rw [if_neg]
      intro hkk
      have hm : kv'.1 ∈ rest.map Prod.fst := List.mem_map_of_mem Prod.fst hkv'
      have hkk' : k = kv'.1 := hkk
      exact hk (hkk'.symm ▸ hm)

theorem processGtfsCalendar_single (provider : String)
    (cals : String → Option (List CalendarRow))
    (cdss : String → Option (List CalendarDateRow)) :
    processGtfsCalendar [provider] cals cdss
      = processCalendarData (cals provider) (cdss provider) provider := by
  unfold processGtfsCalendar
  rw [List.foldl_cons, List.foldl_nil,
    mergeCal_fold_append _ []
      (nodup_keys_processCalendarData (cals provider) (cdss provider) provider)
      (fun kv _ => rfl)]
  rfl

theorem processCalendarData_some_none (rows : List CalendarRow) (provider : String)
    (hne : rows ≠ []) :
    processCalendarData (some rows) none provider
      = (rows.foldl (applyCalendarRow provider) []).map
          (fun kv => (kv.1, setToEntries kv.2)) := by
  obtain ⟨r, rest, rfl⟩ := List.exists_cons_of_ne_nil hne
  rfl

theorem mem_entry_alookup_output (m : CalMap) (d : Nat) (a b : String) :
    (⟨a, b⟩ : CalEntry) ∈
        ((alookup (m.map (fun kv => (kv.1, setToEntries kv.2))) d).getD [])
      ↔ (a, b) ∈ getSet m d := by
  rw [alookup_map_value]
  cases h : alookup m d with
  | none => simp [getSet, h]
  | some s =>
    simp only [Option.map_some', Option.getD_some, getSet, h, setToEntries,
      List.mem_map]
    constructor
    · rintro ⟨x, hx, hxe⟩
      have h1 : x.1 = a := congrArg CalEntry.gtfs_id hxe
      have h2 : x.2 = b := congrArg CalEntry.service_id hxe
      have : x = (a, b) := by
        rw [← h1, ← h2]
      exact this ▸ hx
    · intro hab
      exact ⟨(a, b), hab, rfl⟩

theorem processCalendarData_cds_cons (cal : Option (List CalendarRow))
    (c0 : CalendarDateRow) (cds' : List CalendarDateRow) (provider : String) :
    processCalendarData cal (some (c0 :: cds')) provider
      = ((c0 :: cds').foldl (applyCalendarDateRow provider)
          (if tableExists cal then (cal.getD []).foldl (applyCalendarRow provider) []
           else [])).map (fun kv => (kv.1, setToEntries kv.2)) := by
  unfold processCalendarData
  simp [tableExists]

/-- C1: for every calendar row `(service_id, start_date, end_date, seven
weekday flags)`, the Calendar Resolver adds `(provider, service_id)` to the
set of exactly those dates in the inclusive range `[start_date, end_date]`
whose weekday flag is true (membership characterized over a calendar table),
and a row with `end_date < start_date` contributes no dates and raises no
error (the resolver is total and returns the empty mapping for such a
single-row table). Dates are day numbers with day 0 a Monday. -/
theorem calendar_row_active_dates (provider sid : String) (rows : List CalendarRow)
    (d : Nat) (hne : rows ≠ []) :
    ((⟨provider, sid⟩ : CalEntry) ∈
        ((alookup (processCalendarData (some rows) none provider) d).getD [])
      ↔ ∃ r ∈ rows, sid = r.service_id ∧ r.start_date ≤ d ∧ d ≤ r.end_date ∧
          (validDays r).getD (weekday d) false = true)
    ∧ ∀ r : CalendarRow, r.end_date < r.start_date →
        processCalendarData (some [r]) none provider = [] := by
  constructor
  · rw [processCalendarData_some_none rows provider hne, mem_entry_alookup_output,
      mem_getSet_calRows_fold]
    simp [getSet, alookup, mem_dateRange, Prod.ext_iff, and_assoc]
  · intro r hr
    rw [processCalendarData_some_none [r] provider (by simp)]
    rw [List.foldl_cons, List.foldl_nil]
    unfold applyCalendarRow
    rw [dateRange_eq_nil _ _ hr]
    rfl

/-- C1 witness: a Monday–Friday service over day range `[2, 8]` is active on
day 7 (a Monday) and not on day 6 (a Sunday); a row with
`end_date < start_date` yields the empty mapping. -/
theorem calendar_row_active_dates_witness :
    ((⟨"A", "WD"⟩ : CalEntry) ∈
        ((alookup (processCalendarData
          (some [⟨"WD", 2, 8, true, true, true, true, true, false, false⟩])
          none "A") 7).getD []))
    ∧ ((⟨"A", "WD"⟩ : CalEntry) ∉
        ((alookup (processCalendarData
          (some [⟨"WD", 2, 8, true, true, true, true, true, false, false⟩])
          none "A") 6).getD []))
    ∧ processCalendarData
        (some [⟨"Z", 9, 3, true, true, true, true, true, true, true⟩]) none "A"
        = [] := by
  refine ⟨?_, ?_, ?_⟩
  · exact (calendar_row_active_dates "A" "WD" _ 7 (by simp)).1.mpr (by decide)
  · intro hmem
    exact absurd ((calendar_row_active_dates "A" "WD" _ 6 (by simp)).1.mp hmem)
      (by decide)
  · exact (calendar_row_active_dates "A" "WD"
      [⟨"Z", 9, 3, true, true, true, true, true, true, true⟩] 0 (by simp)).2
      ⟨"Z", 9, 3, true, true, true, true, true, true, true⟩ (by decide)

/-- C2: for every calendar_dates row, `exception_type == 1` adds
`(provider, service_id)` to that date's set, and `exception_type == 2`
removes it when present and leaves the set unchanged (raising no error)
when the pair was never present in that date's set. -/
theorem calendar_dates_exception_semantics (provider : String) (m : CalMap)
    (c : CalendarDateRow) :
    (c.exception_type = 1 →
      (provider, c.service_id) ∈ getSet (applyCalendarDateRow provider m c) c.date)
    ∧ (c.exception_type = 2 →
        ((provider, c.service_id) ∉ getSet (applyCalendarDateRow provider m c) c.date
        ∧ ((provider, c.service_id) ∉ getSet m c.date →
            getSet (applyCalendarDateRow provider m c) c.date = getSet m c.date))) := by
  constructor
  · intro h1
    unfold applyCalendarDateRow
    rw [if_pos h1, getSet_dupdate, if_pos rfl, mem_sadd]
    exact Or.inl rfl
  · intro h2
    have hset : getSet (applyCalendarDateRow provider m c) c.date
        = sdiscard (provider, c.service_id) (getSet m c.date) := by
      unfold applyCalendarDateRow
      rw [if_neg (by rw [h2]; decide), if_pos h2, getSet_dupdate, if_pos rfl]
    constructor
    · rw [hset, mem_sdiscard]
      rintro ⟨hne, _⟩
      exact hne rfl
    · intro habs
      rw [hset, sdiscard_of_not_mem _ _ habs]

/-- C2 witness: an `exception_type = 1` row adds the pair to an empty date
set; an `exception_type = 2` row removes a present pair; an
`exception_type = 2` row for an absent pair leaves the date's set as it
was. -/
theorem calendar_dates_exception_semantics_witness :
    ("A", "X") ∈ getSet (applyCalendarDateRow "A" [] ⟨"X", 5, 1⟩) 5
    ∧ ("A", "X") ∉ getSet (applyCalendarDateRow "A" [(5, [("A", "X")])] ⟨"X", 5, 2⟩) 5
    ∧ getSet (applyCalendarDateRow "A" [(5, [("A", "Y")])] ⟨"X", 5, 2⟩) 5
        = getSet [(5, [("A", "Y")])] 5 := by
  refine ⟨?_, ?_, ?_⟩
  · exact (calendar_dates_exception_semantics "A" [] ⟨"X", 5, 1⟩).1 rfl
  · exact ((calendar_dates_exception_semantics "A" [(5, [("A", "X")])]
      ⟨"X", 5, 2⟩).2 rfl).1
  · exact ((calendar_dates_exception_semantics "A" [(5, [("A", "Y")])]
      ⟨"X", 5, 2⟩).2 rfl).2 (by decide)

/-- C10: a calendar_dates row with `exception_type == 2` for a pair that is
not active on its date still materializes the date as a key of the
resolver's output — mapped to the empty list — and the final merged
calendar therefore carries that date as a key mapped to the empty list
rather than omitting it. -/
theorem discard_materializes_date (provider : String)
    (cal : Option (List CalendarRow)) (cds : List CalendarDateRow) (d : Nat)
    (hex : ∃ c ∈ cds, c.date = d)
    (h2 : ∀ c ∈ cds, c.date = d → c.exception_type = 2)
    (hcal : ∀ r ∈ cal.getD [], ∀ d' ∈ dateRange r.start_date r.end_date,
        (validDays r).getD (weekday d') false = true → d' ≠ d) :
    alookup (processCalendarData cal (some cds) provider) d = some []
    ∧ alookup (processGtfsCalendar [provider] (fun _ => cal) (fun _ => some cds)) d
        = some [] := by
  obtain ⟨c0, hc0, hcd0⟩ := hex
  obtain ⟨chd, cds', rfl⟩ := List.exists_cons_of_ne_nil (List.ne_nil_of_mem hc0)
  have hmain : alookup (processCalendarData cal (some (chd :: cds')) provider) d
      = some [] := by
    rw [processCalendarData_cds_cons, alookup_map_value]
    have hm1 : alookup
        (if tableExists cal
         then (cal.getD []).foldl (applyCalendarRow provider) [] else []) d
        = none := by
      by_cases hcl : tableExists cal
      · rw [if_pos hcl, alookup_calRows_fold_untouched provider _ [] d hcal]
        rfl
      · rw [if_neg hcl]
        rfl
    rw [cds_fold_materializes provider (chd :: cds') d _ h2 hm1 ⟨c0, hc0, hcd0⟩]
    rfl
  refine ⟨hmain, ?_⟩
  rw [processGtfsCalendar_single]
  exact hmain

/-- C10 witness: a single provider whose only calendar data is one
`exception_type = 2` row at day 5 produces a final calendar with day 5
present and mapped to the empty list. -/
theorem discard_materializes_date_witness :
    alookup (processCalendarData none (some [⟨"X", 5, 2⟩]) "P") 5 = some []
    ∧ alookup (processGtfsCalendar ["P"] (fun _ => none)
        (fun _ => some [⟨"X", 5, 2⟩])) 5 = some [] :=
  discard_materializes_date "P" none [⟨"X", 5, 2⟩] 5
    (by decide) (by decide) (by decide)

/-! ## Translation resolver lemmas and claims C4, C5, C6 -/

theorem filter_head_eq_find {α : Type} (p : α → Bool) (l : List α) :
    (l.filter p).head? = l.find? p := by
  induction l with
  | nil => rfl
  | cons a rest ih =>
    by_cases h : p a
    · simp [List.filter_cons, h]
    · simp [List.filter_cons, h, ih]

/-- C6: the Translation Resolver returns the empty string (and, being a
total function, raises nothing) whenever no translation table was loaded or
the loaded table is empty; when loaded, it first tries to match a row by
`record_id` against the identifier, only on failure matches `field_value`
against the string form of the identifier, and returns the empty string if
neither match succeeds — it agrees with the spec-worded lookup
`specTranslation` on every argument tuple. -/
theorem translation_lookup_spec :
    (∀ (tbl fld lang : String) (ident : Value),
        getTranslation none tbl fld lang ident = ""
        ∧ getTranslation (some []) tbl fld lang ident = "")
    ∧ ∀ (tr : Option (List TranslationRow)) (tbl fld lang : String) (ident : Value),
        getTranslation tr tbl fld lang ident
          = specTranslation tr tbl fld lang ident := by
  constructor
  · exact fun tbl fld lang ident => ⟨rfl, rfl⟩
  · intro tr tbl fld lang ident
    cases tr with
    | none => rfl
    | some rows =>
      have hget : getTranslation (some rows) tbl fld lang ident
          = if rows.isEmpty then ""
            else
              match (if (rows.filter (primaryPred tbl fld lang ident)).isEmpty
                  then rows.filter (fallbackPred tbl fld lang ident)
                  else rows.filter (primaryPred tbl fld lang ident)) with
              | [] => ""
              | t :: _ => t.translation := rfl
      have hspec : specTranslation (some rows) tbl fld lang ident
          = match rows.find? (primaryPred tbl fld lang ident) with
            | some t => t.translation
            | none =>
              match rows.find? (fallbackPred tbl fld lang ident) with
              | some t => t.translation
              | none => "" := rfl
      rw [hget, hspec]
      by_cases he : rows.isEmpty
      · have hnil : rows = [] := List.isEmpty_iff.mp he
        subst hnil
        rfl
      · rw [if_neg he]
        by_cases h1 : (rows.filter (primaryPred tbl fld lang ident)).isEmpty
        · have hfil : rows.filter (primaryPred tbl fld lang ident) = [] :=
            List.isEmpty_iff.mp h1
          have hfind : rows.find? (primaryPred tbl fld lang ident) = none :=
            List.find?_eq_none.mpr (List.filter_eq_nil_iff.mp hfil)
          rw [if_pos h1, hfind]
          cases hf2 : rows.find? (fallbackPred tbl fld lang ident) with
          | none =>
            have hfil2 : rows.filter (fallbackPred tbl fld lang ident) = [] :=
              List.filter_eq_nil_iff.mpr (List.find?_eq_none.mp hf2)
            rw [hfil2]
          | some t =>
            have hne2 : rows.filter (fallbackPred tbl fld lang ident) ≠ [] := by
              intro hh
              have hhead := filter_head_eq_find (fallbackPred tbl fld lang ident) rows
              rw [hh, hf2] at hhead
              exact Option.noConfusion hhead
            obtain ⟨u, us, hfl⟩ := List.exists_cons_of_ne_nil hne2
            have hut : u = t := by
              have hhead := filter_head_eq_find (fallbackPred tbl fld lang ident) rows
              rw [hfl, hf2] at hhead
              exact Option.some.inj hhead
            rw [hfl, hut]
        · have hne2 : rows.filter (primaryPred tbl fld lang ident) ≠ [] :=
            fun hh => h1 (by rw [hh]; rfl)
          obtain ⟨t0, ts, hfil⟩ := List.exists_cons_of_ne_nil hne2
          have hfind : rows.find? (primaryPred tbl fld lang ident) = some t0 := by
            rw [← filter_head_eq_find, hfil]
            rfl
          rw [if_neg h1, hfil, hfind]

/-- C4: the record's headsign equals the stop_times row's own headsign when
non-empty, else the trip's headsign when that column exists, else the empty
string; and the record's route_name equals the route's short name when
non-empty, else its long name, else the empty string — the code's fallback
agrees with the spec-worded `specHeadsign` and `specRouteName`. -/
theorem record_fallback_precedence (row : StopTimeRow) (trips : TripsTable)
    (trip : TripRow) (routes : RoutesTable) (route : RouteRow) (provider : String)
    (translations : Option (List TranslationRow)) :
    (mkRecord row trips trip routes route provider translations).headsign
        = Value.s (specHeadsign row trips trip)
    ∧ (mkRecord row trips trip routes route provider translations).route_name
        = Value.s (specRouteName routes route) := by
  constructor
  · have h : (mkRecord row trips trip routes route provider translations).headsign
        = Value.s (resolveHeadsign row trips.hasTripHeadsign trip) := rfl
    rw [h]
    unfold resolveHeadsign specHeadsign
    cases row.stop_headsign with
    | none => rfl
    | some s => by_cases hs : s = "" <;> simp [hs]
  · have h : (mkRecord row trips trip routes route provider translations).route_name
        = Value.s (resolveRouteName routes route) := rfl
    rw [h]
    unfold resolveRouteName specRouteName
    by_cases hs : (if routes.hasShortName then route.route_short_name.getD "" else "") = ""
      <;> simp [hs]

/-- C5: in every built record, `route_name_en` is the Translation Resolver
lookup on `(routes, route_long_name, en, route_id of the joined trip)` and
`headsign_en` is the lookup on `(stop_times, stop_headsign, en, h)` where
`h` is exactly the resolved headsign text stored in the record's own
headsign field — the lookup is keyed by the resolved text, not by a row
identifier. -/
theorem record_translation_keys (row : StopTimeRow) (trips : TripsTable)
    (trip : TripRow) (routes : RoutesTable) (route : RouteRow) (provider : String)
    (translations : Option (List TranslationRow)) :
    (mkRecord row trips trip routes route provider translations).route_name_en
        = Value.s (getTranslation translations "routes" "route_long_name" "en"
            (Value.s trip.route_id))
    ∧ (mkRecord row trips trip routes route provider translations).headsign
        = Value.s (resolveHeadsign row trips.hasTripHeadsign trip)
    ∧ (mkRecord row trips trip routes route provider translations).headsign_en
        = Value.s (getTranslation translations "stop_times" "stop_headsign" "en"
            (Value.s (resolveHeadsign row trips.hasTripHeadsign trip))) :=
  ⟨rfl, rfl, rfl⟩

/-- C3 (code bug): the claim describes the row mask — stop id match,
pickup_type absent or 0, departure time present — and its example says a
row with departure time `25:10:00` and no pickup_type is included.  The
mask indeed spells `isna() or astype(int) == 0`, but pandas evaluates
`astype(int)` eagerly over the whole pickup_type column, which raises
`ValueError` on any NaN: on the spec's own example feed the extractor
aborts instead of returning the record, while the intended per-row
semantics (`processStop`) and a fully-populated column (`feedClean`) yield
exactly the claimed selection — the `pickup_type = 1` row excluded. -/
theorem pickup_type_filter_code_bug :
    processStopE feedBlankPickup "A" none "S1"
        = .error "ValueError: cannot convert non-finite values (NA) to integer"
    ∧ processStop feedBlankPickup "A" none "S1" = [recCityHall]
    ∧ processStopE feedClean "A" none "S1" = .ok [recCityHall] :=
  ⟨rfl, rfl, rfl⟩

/-! ## Departure extraction lemmas -/

theorem filter_filter_subset {α : Type} (l : List α) (p q : α → Bool)
    (h : ∀ a, p a = true → q a = true) :
    (l.filter q).filter p = l.filter p := by
  rw [List.filter_filter]
  apply List.filter_congr
  intro x _
  by_cases hp : p x
  · simp [hp, h x hp]
  · simp [hp]

theorem trips_filter_eq (feed : Feed) (sid : String) (row : StopTimeRow)
    (hrow : row ∈ feed.stop_times.filter (stopMask sid)) :
    (restrictedTrips feed sid).filter (fun t => decide (t.trip_id = row.trip_id))
      = feed.trips.rows.filter (fun t => decide (t.trip_id = row.trip_id)) := by
  unfold restrictedTrips
  apply filter_filter_subset
  intro t ht
  have heq : t.trip_id = row.trip_id := of_decide_eq_true ht
  rw [List.any_eq_true]
  exact ⟨row, hrow, decide_eq_true heq.symm⟩

theorem routes_filter_eq (feed : Feed) (sid : String) (trip : TripRow)
    (htrip : trip ∈ restrictedTrips feed sid) :
    (restrictedRoutes feed sid).filter (fun rt => decide (rt.route_id = trip.route_id))
      = feed.routes.rows.filter (fun rt => decide (rt.route_id = trip.route_id)) := by
  unfold restrictedRoutes
  apply filter_filter_subset
  intro rt hrt
  have heq : rt.route_id = trip.route_id := of_decide_eq_true hrt
  rw [List.any_eq_true]
  exact ⟨trip, htrip, decide_eq_true heq.symm⟩

theorem extractLoop_eq_filterMap (feed : Feed) (provider : String)
    (translations : Option (List TranslationRow)) (sid : String)
    (l : List StopTimeRow)
    (hsub : ∀ row ∈ l, row ∈ feed.stop_times.filter (stopMask sid)) :
    extractLoop feed (restrictedTrips feed sid) (restrictedRoutes feed sid)
        provider translations l
      = (l.filter (fun r => !(pdIsna r.departure_time))).filterMap
          (joinBuild feed provider translations) := by
  induction l with
  | nil => rfl
  | cons row rest ih =>
    have hrow := hsub row (List.mem_cons_self _ _)
    have hrest : ∀ r ∈ rest, r ∈ feed.stop_times.filter (stopMask sid) :=
      fun r hr => hsub r (List.mem_cons_of_mem _ hr)
    rw [List.filter_cons]
    by_cases hna : pdIsna row.departure_time
    · rw [if_neg (by simp [hna])]
      have hext : extractLoop feed (restrictedTrips feed sid) (restrictedRoutes feed sid)
          provider translations (row :: rest)
          = extractLoop feed (restrictedTrips feed sid) (restrictedRoutes feed sid)
            provider translations rest := by
        simp only [extractLoop]
        rw [if_pos hna]
      rw [hext, ih hrest]
    · rw [if_pos (by simp [hna])]
      rw [List.filterMap_cons]
      cases htf : feed.trips.rows.filter (fun t => decide (t.trip_id = row.trip_id)) with
      | nil =>
        have hjbn : joinBuild feed provider translations row = none := by
          unfold joinBuild
          simp only [htf]
        have hext : extractLoop feed (restrictedTrips feed sid) (restrictedRoutes feed sid)
            provider translations (row :: rest)
            = extractLoop feed (restrictedTrips feed sid) (restrictedRoutes feed sid)
              provider translations rest := by
          simp only [extractLoop]
          rw [if_neg hna, trips_filter_eq feed sid row hrow]
          simp only [htf]
        rw [hext, ih hrest]
        simp only [hjbn]
      | cons trip tl =>
        have htm : trip ∈ restrictedTrips feed sid := by
          have h1 : trip ∈ (restrictedTrips feed sid).filter
              (fun t => decide (t.trip_id = row.trip_id)) := by
            rw [trips_filter_eq feed sid row hrow, htf]
            exact List.mem_cons_self _ _
          exact List.mem_of_mem_filter h1
        cases hrf : feed.routes.rows.filter (fun rt => decide (rt.route_id = trip.route_id)) with
        | nil =>
          have hjbn : joinBuild feed provider translations row = none := by
            unfold joinBuild
            simp only [htf, hrf]
          have hext : extractLoop feed (restrictedTrips feed sid) (restrictedRoutes feed sid)
              provider translations (row :: rest)
              = extractLoop feed (restrictedTrips feed sid) (restrictedRoutes feed sid)
                provider translations rest := by
            simp only [extractLoop]
            rw [if_neg hna, trips_filter_eq feed sid row hrow]
            simp only [htf]
            rw [routes_filter_eq feed sid trip htm]
            simp only [hrf]
          rw [hext, ih hrest]
          simp only [hjbn]
        | cons route rl =>
          have hjbs : joinBuild feed provider translations row
              = some (mkRecord row feed.trips trip feed.routes route provider
                  translations) := by
            unfold joinBuild
            simp only [htf, hrf]
          have hext : extractLoop feed (restrictedTrips feed sid) (restrictedRoutes feed sid)
              provider translations (row :: rest)
              = mkRecord row feed.trips trip feed.routes route provider translations
                :: extractLoop feed (restrictedTrips feed sid) (restrictedRoutes feed sid)
                  provider translations rest := by
            simp only [extractLoop]
            rw [if_neg hna, trips_filter_eq feed sid row hrow]
            simp only [htf]
            rw [routes_filter_eq feed sid trip htm]
            simp only [hrf]
          rw [hext, ih hrest]
          simp only [hjbs]

theorem processStop_eq_filterMap (feed : Feed) (provider : String)
    (translations : Option (List TranslationRow)) (sid : String) :
    processStop feed provider translations sid
      = (selectedRows feed sid).filterMap (joinBuild feed provider translations) := by
  have hsel : selectedRows feed sid
      = (feed.stop_times.filter (stopMask sid)).filter
          (fun r => !(pdIsna r.departure_time)) := by
    unfold selectedRows
    rw [List.filter_filter]
    apply List.filter_congr
    intro r _
    exact (Bool.and_comm _ _).symm
  have hshape : processStop feed provider translations sid
      = if (feed.stop_times.filter (stopMask sid)).isEmpty then []
        else extractLoop feed (restrictedTrips feed sid) (restrictedRoutes feed sid)
          provider translations (feed.stop_times.filter (stopMask sid)) := rfl
  by_cases h : (feed.stop_times.filter (stopMask sid)).isEmpty
  · have hnil := List.isEmpty_iff.mp h
    rw [hshape, if_pos h, hsel, hnil]
    rfl
  · rw [hshape, if_neg h, hsel]
    exact extractLoop_eq_filterMap feed provider translations sid _ (fun r hr => hr)

theorem pdIsna_eq_false_iff (v : Value) : pdIsna v = false ↔ v ≠ Value.null := by
  cases v <;> simp [pdIsna]

theorem mkRecord_contract (row : StopTimeRow) (trips : TripsTable) (trip : TripRow)
    (routes : RoutesTable) (route : RouteRow) (provider : String)
    (translations : Option (List TranslationRow))
    (hna : row.departure_time ≠ Value.null) :
    amendedStringContract (mkRecord row trips trip routes route provider translations) :=
  ⟨rfl, rfl, rfl, rfl, rfl, rfl, rfl, rfl, hna⟩

theorem joinBuild_eq_some (feed : Feed) (provider : String)
    (translations : Option (List TranslationRow)) (row : StopTimeRow)
    (rec : DepartureRecord)
    (h : joinBuild feed provider translations row = some rec) :
    ∃ trip route,
      rec = mkRecord row feed.trips trip feed.routes route provider translations := by
  cases htf : feed.trips.rows.filter (fun t => decide (t.trip_id = row.trip_id)) with
  | nil =>
    have hn : joinBuild feed provider translations row = none := by
      unfold joinBuild
      simp only [htf]
    rw [hn] at h
    exact Option.noConfusion h
  | cons trip tl =>
    cases hrf : feed.routes.rows.filter (fun rt => decide (rt.route_id = trip.route_id)) with
    | nil =>
      have hn : joinBuild feed provider translations row = none := by
        unfold joinBuild
        simp only [htf, hrf]
      rw [hn] at h
      exact Option.noConfusion h
    | cons route rl =>
      have hs : joinBuild feed provider translations row
          = some (mkRecord row feed.trips trip feed.routes route provider translations) := by
        unfold joinBuild
        simp only [htf, hrf]
      rw [hs] at h
      exact ⟨trip, route, (Option.some.inj h).symm⟩

theorem processStop_contract (feed : Feed) (provider : String)
    (translations : Option (List TranslationRow)) (sid : String) :
    ∀ rec ∈ processStop feed provider translations sid, amendedStringContract rec := by
  intro rec hrec
  rw [processStop_eq_filterMap] at hrec
  obtain ⟨row, hrowmem, hjb⟩ := List.mem_filterMap.mp hrec
  have hsel := (List.mem_filter.mp hrowmem).2
  have hna : row.departure_time ≠ Value.null := by
    have h2 := (Bool.and_eq_true _ _).mp hsel |>.2
    have h3 : pdIsna row.departure_time = false := by
      cases hcase : pdIsna row.departure_time
      · rfl
      · rw [hcase] at h2
        exact absurd h2 (by decide)
    exact (pdIsna_eq_false_iff _).mp h3
  obtain ⟨trip, route, hrec'⟩ := joinBuild_eq_some feed provider translations row rec hjb
  rw [hrec']
  exact mkRecord_contract row feed.trips trip feed.routes route provider translations hna

theorem processStopDepartures_contract (stops : List (Option String)) (feed : Feed)
    (provider : String) (translations : Option (List TranslationRow)) :
    ∀ deps ∈ processStopDepartures stops feed provider translations,
      ∀ rec ∈ deps, amendedStringContract rec := by
  intro deps hdeps rec hrec
  unfold processStopDepartures at hdeps
  obtain ⟨st, _, hst⟩ := List.mem_map.mp hdeps
  cases st with
  | none =>
    rw [← hst] at hrec
    exact absurd hrec (List.not_mem_nil _)
  | some sid =>
    rw [← hst] at hrec
    exact processStop_contract feed provider translations sid rec hrec

theorem dextendRecs_contract (m : DepInfo) (k : String) (v : List DepartureRecord)
    (hm : ∀ kv ∈ m, ∀ rec ∈ kv.2, amendedStringContract rec)
    (hv : ∀ rec ∈ v, amendedStringContract rec) :
    ∀ kv ∈ dextendRecs m k v, ∀ rec ∈ kv.2, amendedStringContract rec := by
  intro kv hkv rec hrec
  unfold dextendRecs at hkv
  obtain ⟨kv0, hkv0, hkveq⟩ := List.mem_map.mp hkv
  by_cases hk : kv0.1 = k
  · rw [← hkveq, if_pos hk] at hrec
    rcases List.mem_append.mp hrec with h | h
    · exact hm kv0 hkv0 rec h
    · exact hv rec h
  · rw [← hkveq, if_neg hk] at hrec
    exact hm kv0 hkv0 rec hrec

theorem appendStopLists_contract (acc : DepInfo) (k : String)
    (lists : List (List DepartureRecord))
    (hacc : ∀ kv ∈ acc, ∀ rec ∈ kv.2, amendedStringContract rec)
    (hlists : ∀ deps ∈ lists, ∀ rec ∈ deps, amendedStringContract rec) :
    ∀ kv ∈ appendStopLists acc k lists, ∀ rec ∈ kv.2, amendedStringContract rec := by
  induction lists generalizing acc with
  | nil => exact hacc
  | cons deps rest ih =>
    unfold appendStopLists
    rw [List.foldl_cons]
    have hstep : ∀ kv ∈ (if deps.isEmpty then acc else dextendRecs acc k deps),
        ∀ rec ∈ kv.2, amendedStringContract rec := by
      by_cases hde : deps.isEmpty
      · rw [if_pos hde]
        exact hacc
      · rw [if_neg hde]
        exact dextendRecs_contract acc k deps hacc
          (hlists deps (List.mem_cons_self _ _))
    exact ih _ hstep (fun d hd => hlists d (List.mem_cons_of_mem _ hd))

theorem processProviderDepartures_contract (cfg : PlatformConfig) (provider : String)
    (feed : Feed) (translations : Option (List TranslationRow)) (acc : DepInfo)
    (hacc : ∀ kv ∈ acc, ∀ rec ∈ kv.2, amendedStringContract rec) :
    ∀ kv ∈ processProviderDepartures cfg provider feed translations acc,
      ∀ rec ∈ kv.2, amendedStringContract rec := by
  induction cfg generalizing acc with
  | nil => exact hacc
  | cons pc rest ih =>
    unfold processProviderDepartures
    rw [List.foldl_cons]
    have hstep : ∀ kv ∈
        (if ((pc.2.filter (fun e => decide (e.1 = provider))).map Prod.snd).isEmpty
         then acc
         else appendStopLists acc pc.1
           (processStopDepartures
             ((pc.2.filter (fun e => decide (e.1 = provider))).map Prod.snd)
             feed provider translations)),
        ∀ rec ∈ kv.2, amendedStringContract rec := by
      by_cases hde : ((pc.2.filter (fun e => decide (e.1 = provider))).map Prod.snd).isEmpty
      · rw [if_pos hde]
        exact hacc
      · rw [if_neg hde]
        exact appendStopLists_contract acc pc.1 _ hacc
          (processStopDepartures_contract _ feed provider translations)
    exact ih _ hstep

theorem providers_fold_contract (providers : List String) (cfg : PlatformConfig)
    (feeds : String → Feed) (trs : String → Option (List TranslationRow))
    (acc : DepInfo)
    (hacc : ∀ kv ∈ acc, ∀ rec ∈ kv.2, amendedStringContract rec) :
    ∀ kv ∈ providers.foldl
        (fun acc provider =>
          processProviderDepartures cfg provider (feeds provider) (trs provider) acc)
        acc,
      ∀ rec ∈ kv.2, amendedStringContract rec := by
  induction providers generalizing acc with
  | nil => exact hacc
  | cons p rest ih =>
    rw [List.foldl_cons]
    exact ih _ (processProviderDepartures_contract cfg p (feeds p) (trs p) acc hacc)

theorem processGtfsDepartureInfo_contract (providers : List String)
    (cfg : PlatformConfig) (feeds : String → Feed)
    (trs : String → Option (List TranslationRow)) :
    ∀ kv ∈ processGtfsDepartureInfo providers cfg feeds trs,
      ∀ rec ∈ kv.2, amendedStringContract rec := by
  unfold processGtfsDepartureInfo
  apply providers_fold_contract
  intro kv hkv rec hrec
  obtain ⟨pc, _, hpc⟩ := List.mem_map.mp hkv
  rw [← hpc] at hrec
  exact absurd hrec (List.not_mem_nil _)

/-! ## Exception-path agreement lemmas -/

theorem processStopE_ok (feed : Feed) (provider : String)
    (translations : Option (List TranslationRow)) (sid : String)
    (hclean : pickupColumnOk feed = true) :
    processStopE feed provider translations sid
      = .ok (processStop feed provider translations sid) := by
  unfold processStopE
  rw [if_pos hclean]

theorem processStopDeparturesE_ok (stops : List (Option String)) (feed : Feed)
    (provider : String) (translations : Option (List TranslationRow))
    (hclean : pickupColumnOk feed = true) :
    processStopDeparturesE stops feed provider translations
      = .ok (processStopDepartures stops feed provider translations) := by
  induction stops with
  | nil => rfl
  | cons st rest ih =>
    cases st with
    | none =>
      show (processStopDeparturesE rest feed provider translations).map
          (fun l => [] :: l) = _
      rw [ih]
      rfl
    | some sid =>
      show (do
        let d ← processStopE feed provider translations sid
        let l ← processStopDeparturesE rest feed provider translations
        pure (d :: l)) = _
      rw [processStopE_ok feed provider translations sid hclean, ih]
      rfl

theorem foldlM_eq_ok {α β : Type} (f : β → α → Except String β) (g : β → α → β)
    (h : ∀ b a, f b a = .ok (g b a)) (l : List α) (b : β) :
    l.foldlM f b = .ok (l.foldl g b) := by
  induction l generalizing b with
  | nil => rfl
  | cons a t ih =>
    rw [List.foldlM_cons, h b a]
    show t.foldlM f (g b a) = _
    exact ih (g b a)

theorem processProviderDeparturesE_ok (cfg : PlatformConfig) (provider : String)
    (feed : Feed) (translations : Option (List TranslationRow)) (acc : DepInfo)
    (hclean : pickupColumnOk feed = true) :
    processProviderDeparturesE cfg provider feed translations acc
      = .ok (processProviderDepartures cfg provider feed translations acc) := by
  unfold processProviderDeparturesE processProviderDepartures
  apply foldlM_eq_ok
  intro a pc
  show (if ((pc.2.filter (fun e => decide (e.1 = provider))).map Prod.snd).isEmpty
      then pure a
      else (processStopDeparturesE
          ((pc.2.filter (fun e => decide (e.1 = provider))).map Prod.snd)
          feed provider translations).map
        (fun lists => appendStopLists a pc.1 lists))
    = .ok (if ((pc.2.filter (fun e => decide (e.1 = provider))).map Prod.snd).isEmpty
      then a
      else appendStopLists a pc.1
        (processStopDepartures
          ((pc.2.filter (fun e => decide (e.1 = provider))).map Prod.snd)
          feed provider translations))
  by_cases hde : ((pc.2.filter (fun e => decide (e.1 = provider))).map Prod.snd).isEmpty
  · rw [if_pos hde, if_pos hde]
    rfl
  · rw [if_neg hde, if_neg hde,
      processStopDeparturesE_ok _ feed provider translations hclean]
    rfl

theorem processGtfsDepartureInfoE_ok (providers : List String) (cfg : PlatformConfig)
    (feeds : String → Feed) (trs : String → Option (List TranslationRow))
    (hclean : ∀ provider, pickupColumnOk (feeds provider) = true) :
    processGtfsDepartureInfoE providers cfg feeds trs
      = .ok (processGtfsDepartureInfo providers cfg feeds trs) := by
  unfold processGtfsDepartureInfoE processGtfsDepartureInfo
  apply foldlM_eq_ok
  intro acc provider
  exact processProviderDeparturesE_ok cfg provider (feeds provider) (trs provider)
    acc (hclean provider)

/-! ## Aggregation lookup lemmas -/

theorem alookup_appendStopLists (acc : DepInfo) (k : String)
    (lists : List (List DepartureRecord)) (j : String) :
    alookup (appendStopLists acc k lists) j
      = if j = k then (alookup acc k).map (fun l => l ++ lists.flatten)
        else alookup acc j := by
  induction lists generalizing acc with
  | nil =>
    show alookup acc j = _
    by_cases hjk : j = k
    · subst hjk
      rw [if_pos rfl]
      cases alookup acc j <;> simp
    · rw [if_neg hjk]
  | cons deps rest ih =>
    have hstep : appendStopLists acc k (deps :: rest)
        = appendStopLists (if deps.isEmpty then acc else dextendRecs acc k deps)
            k rest := rfl
    rw [hstep, ih]
    by_cases hde : deps.isEmpty
    · have hnil : deps = [] := List.isEmpty_iff.mp hde
      subst hnil
      simp
    · rw [if_neg hde]
      by_cases hjk : j = k
      · subst hjk
        rw [if_pos rfl, if_pos rfl, alookup_dextendRecs, if_pos rfl]
        cases alookup acc j <;> simp [List.append_assoc]
      · rw [if_neg hjk, if_neg hjk, alookup_dextendRecs, if_neg hjk]

theorem alookup_processProviderDepartures_untouched (cfg : PlatformConfig)
    (provider : String) (feed : Feed) (translations : Option (List TranslationRow))
    (acc : DepInfo) (pid : String) (hnk : pid ∉ cfg.map Prod.fst) :
    alookup (processProviderDepartures cfg provider feed translations acc) pid
      = alookup acc pid := by
  induction cfg generalizing acc with
  | nil => rfl
  | cons pc rest ih =>
    rw [List.map_cons, List.mem_cons] at hnk
    push_neg at hnk
    obtain ⟨h1, h2⟩ := hnk
    have hstep : processProviderDepartures (pc :: rest) provider feed translations acc
        = processProviderDepartures rest provider feed translations
          (if ((pc.2.filter (fun e => decide (e.1 = provider))).map Prod.snd).isEmpty
           then acc
           else appendStopLists acc pc.1
             (processStopDepartures
               ((pc.2.filter (fun e => decide (e.1 = provider))).map Prod.snd)
               feed provider translations)) := rfl
    rw [hstep, ih _ h2]
    by_cases hde : ((pc.2.filter (fun e => decide (e.1 = provider))).map Prod.snd).isEmpty
    · rw [if_pos hde]
    · rw [if_neg hde, alookup_appendStopLists, if_neg h1]

theorem stopLists_flatten (provider : String) (feed : Feed)
    (translations : Option (List TranslationRow))
    (stops : List (String × Option String)) :
    (processStopDepartures
        ((stops.filter (fun e => decide (e.1 = provider))).map Prod.snd)
        feed provider translations).flatten
      = providerPlatformRecords provider feed translations stops := by
  unfold processStopDepartures providerPlatformRecords
  rw [List.map_map]
  rfl

theorem alookup_processProviderDepartures (cfg : PlatformConfig) (provider : String)
    (feed : Feed) (translations : Option (List TranslationRow)) (acc : DepInfo)
    (pid : String) (stops : List (String × Option String))
    (hmem : (pid, stops) ∈ cfg) (hnodup : (cfg.map Prod.fst).Nodup) :
    alookup (processProviderDepartures cfg provider feed translations acc) pid
      = (alookup acc pid).map
          (fun l => l ++ providerPlatformRecords provider feed translations stops) := by
  revert hmem hnodup
  induction cfg generalizing acc with
  | nil =>
    intro hmem _
    exact absurd hmem (List.not_mem_nil _)
  | cons pc rest ih =>
    intro hmem hnodup
    have hstep : processProviderDepartures (pc :: rest) provider feed translations acc
        = processProviderDepartures rest provider feed translations
          (if ((pc.2.filter (fun e => decide (e.1 = provider))).map Prod.snd).isEmpty
           then acc
           else appendStopLists acc pc.1
             (processStopDepartures
               ((pc.2.filter (fun e => decide (e.1 = provider))).map Prod.snd)
               feed provider translations)) := rfl
    rw [hstep]
    rw [List.map_cons] at hnodup
    have hnd1 := (List.nodup_cons.mp hnodup).1
    have hnd2 := (List.nodup_cons.mp hnodup).2
    rcases List.mem_cons.mp hmem with heq | hmemrest
    · obtain ⟨pk, pstops⟩ := pc
      injection heq with h1 h2
      subst h1
      subst h2
      rw [alookup_processProviderDepartures_untouched rest provider feed translations
        _ pid hnd1]
      by_cases hde : ((stops.filter (fun e => decide (e.1 = provider))).map Prod.snd).isEmpty
      · rw [if_pos hde]
        have hfe : stops.filter (fun e => decide (e.1 = provider)) = [] :=
          List.map_eq_nil_iff.mp (List.isEmpty_iff.mp hde)
        have hpr : providerPlatformRecords provider feed translations stops = [] := by
          unfold providerPlatformRecords
          rw [hfe]
          rfl
        rw [hpr]
        cases alookup acc pid <;> simp
      · rw [if_neg hde, alookup_appendStopLists, if_pos rfl, stopLists_flatten]
    · have hne : ¬ pid = pc.1 := by
        intro h
        exact hnd1 (h ▸ List.mem_map_of_mem Prod.fst hmemrest)
      have hstepacc : alookup
          (if ((pc.2.filter (fun e => decide (e.1 = provider))).map Prod.snd).isEmpty
           then acc
           else appendStopLists acc pc.1
             (processStopDepartures
               ((pc.2.filter (fun e => decide (e.1 = provider))).map Prod.snd)
               feed provider translations)) pid = alookup acc pid := by
        by_cases hde : ((pc.2.filter (fun e => decide (e.1 = provider))).map Prod.snd).isEmpty
        · rw [if_pos hde]
        · rw [if_neg hde, alookup_appendStopLists, if_neg hne]
      rw [ih _ hmemrest hnd2, hstepacc]

theorem alookup_initDepInfo (cfg : PlatformConfig) (pid : String)
    (hmem : pid ∈ cfg.map Prod.fst) :
    alookup (initDepInfo cfg) pid = some [] := by
  induction cfg with
  | nil => simp at hmem
  | cons pc rest ih =>
    show (if pc.1 = pid then some [] else alookup (initDepInfo rest) pid) = some []
    by_cases h : pc.1 = pid
    · rw [if_pos h]
    · rw [if_neg h]
      rw [List.map_cons, List.mem_cons] at hmem
      rcases hmem with h1 | h1
      · exact absurd h1.symm h
      · exact ih h1

theorem alookup_providers_fold (providers : List String) (cfg : PlatformConfig)
    (feeds : String → Feed) (trs : String → Option (List TranslationRow))
    (pid : String) (stops : List (String × Option String))
    (hmem : (pid, stops) ∈ cfg) (hnodup : (cfg.map Prod.fst).Nodup)
    (acc : DepInfo) (v : List DepartureRecord) (hacc : alookup acc pid = some v) :
    alookup (providers.foldl
        (fun acc provider =>
          processProviderDepartures cfg provider (feeds provider) (trs provider) acc)
        acc) pid
      = some (v ++ platformRecords providers feeds trs stops) := by
  induction providers generalizing acc v with
  | nil =>
    show alookup acc pid = _
    rw [hacc]
    unfold platformRecords
    simp
  | cons prov rest ih =>
    rw [List.foldl_cons]
    have hstep := alookup_processProviderDepartures cfg prov (feeds prov) (trs prov)
      acc pid stops hmem hnodup
    rw [hacc, Option.map_some'] at hstep
    rw [ih _ _ hstep]
    unfold platformRecords
    rw [List.map_cons, List.flatten_cons]
    simp [List.append_assoc]

theorem providerPlatformRecords_null (provider prov : String) (feed : Feed)
    (translations : Option (List TranslationRow))
    (as bs : List (String × Option String)) :
    providerPlatformRecords provider feed translations (as ++ (prov, none) :: bs)
      = providerPlatformRecords provider feed translations (as ++ bs) := by
  unfold providerPlatformRecords
  rw [List.filter_append, List.filter_append, List.filter_cons]
  by_cases hp : prov = provider
  · rw [if_pos (by simpa using hp)]
    simp
  · rw [if_neg (by simpa using hp)]

theorem platformRecords_null (providers : List String) (feeds : String → Feed)
    (trs : String → Option (List TranslationRow)) (prov : String)
    (as bs : List (String × Option String)) :
    platformRecords providers feeds trs (as ++ (prov, none) :: bs)
      = platformRecords providers feeds trs (as ++ bs) := by
  unfold platformRecords
  congr 1
  apply List.map_congr_left
  intro p _
  exact providerPlatformRecords_null p prov (feeds p) (trs p) as bs

/-- C7: the run never errors on clean feeds and, for every configured
platform, the final departure list is the concatenation over configured
providers in configured order of the records of that platform's stops
belonging to the provider, each stop in configured order — ordering comes
from the configuration, never from departure times. -/
theorem platform_departure_order (providers : List String) (cfg : PlatformConfig)
    (feeds : String → Feed) (trs : String → Option (List TranslationRow))
    (pid : String) (stops : List (String × Option String))
    (hclean : ∀ provider, pickupColumnOk (feeds provider) = true)
    (hmem : (pid, stops) ∈ cfg) (hnodup : (cfg.map Prod.fst).Nodup) :
    processGtfsDepartureInfoE providers cfg feeds trs
        = .ok (processGtfsDepartureInfo providers cfg feeds trs)
    ∧ alookup (processGtfsDepartureInfo providers cfg feeds trs) pid
        = some (platformRecords providers feeds trs stops) := by
  constructor
  · exact processGtfsDepartureInfoE_ok providers cfg feeds trs hclean
  · have hinit : alookup (initDepInfo cfg) pid = some [] :=
      alookup_initDepInfo cfg pid (List.mem_map_of_mem Prod.fst hmem)
    have h := alookup_providers_fold providers cfg feeds trs pid stops hmem hnodup
      (initDepInfo cfg) [] hinit
    rw [List.nil_append] at h
    exact h

/-- C7 witness: one provider, one platform with a configured stop of
provider A followed by a null entry of provider B. -/
theorem platform_departure_order_witness :
    processGtfsDepartureInfoE ["A"] [("1", [("A", some "S1"), ("B", none)])]
        (fun _ => feedClean) (fun _ => none)
      = .ok (processGtfsDepartureInfo ["A"] [("1", [("A", some "S1"), ("B", none)])]
          (fun _ => feedClean) (fun _ => none))
    ∧ alookup (processGtfsDepartureInfo ["A"] [("1", [("A", some "S1"), ("B", none)])]
        (fun _ => feedClean) (fun _ => none)) "1"
      = some (platformRecords ["A"] (fun _ => feedClean) (fun _ => none)
          [("A", some "S1"), ("B", none)]) :=
  platform_departure_order ["A"] [("1", [("A", some "S1"), ("B", none)])]
    (fun _ => feedClean) (fun _ => none) "1" [("A", some "S1"), ("B", none)]
    (fun _ => rfl) (List.mem_cons_self _ _) (by simp)

/-- C8 counterexample: a departure record of the final output whose
departure_time is not a string.  The stop_times cell is numeric (as
partridge delivers times, in seconds past midnight) and the source passes
it through without `str(...)`, unlike the other eight fields. -/
theorem departure_time_nonstring_cex :
    processGtfsDepartureInfoE ["A"] [("1", [("A", some "S1")])]
        (fun _ => feedNumericTime) (fun _ => none)
      = .ok [("1", [recNumericTime])]
    ∧ ¬ specAllFieldsString recNumericTime := by
  constructor
  · rfl
  · intro h
    exact absurd h.1 (by decide)

/-- C8 (amended): in every departure record of the final output, the eight
fields route_name, route_name_en, route_color, route_text_color, headsign,
headsign_en, gtfs_id and service_id are strings (empty string standing for
unknown/absent) and departure_time is never a null value; departure_time is
passed through feed-native and is a string only when the feed cell is. -/
theorem textual_fields_string_contract (providers : List String)
    (cfg : PlatformConfig) (feeds : String → Feed)
    (trs : String → Option (List TranslationRow)) (pid : String)
    (l : List DepartureRecord)
    (h : alookup (processGtfsDepartureInfo providers cfg feeds trs) pid = some l) :
    ∀ rec ∈ l, amendedStringContract rec :=
  processGtfsDepartureInfo_contract providers cfg feeds trs (pid, l) (alookup_mem h)

/-- C8 witness: the contract holds for the record produced by the clean
example run. -/
theorem textual_fields_string_contract_witness :
    amendedStringContract recCityHall :=
  textual_fields_string_contract ["A"] [("1", [("A", some "S1")])]
    (fun _ => feedClean) (fun _ => none) "1" [recCityHall] rfl
    recCityHall (List.mem_cons_self _ _)

/-- C9: a configured stop id that is the null placeholder yields an empty
list at its position with no error raised — even on a feed whose pickup
column would abort a real lookup — and its presence does not change the
departure records contributed by the sibling entries of its platform. -/
theorem null_placeholder_harmless (pre post : PlatformConfig) (pid : String)
    (as bs : List (String × Option String)) (prov : String)
    (providers : List String) (feeds : String → Feed)
    (trs : String → Option (List TranslationRow))
    (hnodup : ((pre ++ (pid, as ++ (prov, none) :: bs) :: post).map Prod.fst).Nodup) :
    (∀ (feed : Feed) (provider : String) (tr : Option (List TranslationRow))
        (ys : List (Option String)),
      processStopDeparturesE (none :: ys) feed provider tr
        = (processStopDeparturesE ys feed provider tr).map (fun l => [] :: l))
    ∧ (∀ (feed : Feed) (provider : String) (tr : Option (List TranslationRow))
        (xs ys : List (Option String)),
      processStopDepartures (xs ++ none :: ys) feed provider tr
        = processStopDepartures xs feed provider tr ++ [[]]
          ++ processStopDepartures ys feed provider tr)
    ∧ alookup (processGtfsDepartureInfo providers
          (pre ++ (pid, as ++ (prov, none) :: bs) :: post) feeds trs) pid
        = alookup (processGtfsDepartureInfo providers
            (pre ++ (pid, as ++ bs) :: post) feeds trs) pid := by
  refine ⟨fun feed provider tr ys => rfl, ?_, ?_⟩
  · intro feed provider tr xs ys
    unfold processStopDepartures
    simp
  · have hmem1 : (pid, as ++ (prov, none) :: bs)
        ∈ pre ++ (pid, as ++ (prov, none) :: bs) :: post :=
      List.mem_append.mpr (Or.inr (List.mem_cons_self _ _))
    have hmem2 : (pid, as ++ bs) ∈ pre ++ (pid, as ++ bs) :: post :=
      List.mem_append.mpr (Or.inr (List.mem_cons_self _ _))
    have hkeys : ((pre ++ (pid, as ++ bs) :: post).map Prod.fst)
        = ((pre ++ (pid, as ++ (prov, none) :: bs) :: post).map Prod.fst) := by
      simp
    have hnodup2 : ((pre ++ (pid, as ++ bs) :: post).map Prod.fst).Nodup := by
      rw [hkeys]
      exact hnodup
    have h1 := alookup_providers_fold providers
      (pre ++ (pid, as ++ (prov, none) :: bs) :: post) feeds trs pid
      (as ++ (prov, none) :: bs) hmem1 hnodup
      (initDepInfo (pre ++ (pid, as ++ (prov, none) :: bs) :: post)) []
      (alookup_initDepInfo _ pid (List.mem_map_of_mem Prod.fst hmem1))
    have h2 := alookup_providers_fold providers
      (pre ++ (pid, as ++ bs) :: post) feeds trs pid (as ++ bs) hmem2 hnodup2
      (initDepInfo (pre ++ (pid, as ++ bs) :: post)) []
      (alookup_initDepInfo _ pid (List.mem_map_of_mem Prod.fst hmem2))
    unfold processGtfsDepartureInfo
    rw [h1, h2, platformRecords_null]

/-- C9 witness: the null placeholder of provider B yields the empty list at
its position, raises no error, and removing it leaves platform 1's list
unchanged. -/
theorem null_placeholder_harmless_witness :
    processStopDeparturesE [none] feedBlankPickup "A" none
        = (processStopDeparturesE [] feedBlankPickup "A" none).map (fun l => [] :: l)
    ∧ processStopDepartures [some "S1", none] feedClean "A" none
        = processStopDepartures [some "S1"] feedClean "A" none ++ [[]]
          ++ processStopDepartures [] feedClean "A" none
    ∧ alookup (processGtfsDepartureInfo ["A"]
          [("1", [("A", some "S1"), ("B", none)])]
          (fun _ => feedClean) (fun _ => none)) "1"
        = alookup (processGtfsDepartureInfo ["A"] [("1", [("A", some "S1")])]
            (fun _ => feedClean) (fun _ => none)) "1" := by
  have h := null_placeholder_harmless [] [] "1" [("A", some "S1")] [] "B" ["A"]
    (fun _ => feedClean) (fun _ => none) (by simp)
  exact ⟨h.1 feedBlankPickup "A" none [], h.2.1 feedClean "A" none [some "S1"] [],
    h.2.2⟩

end OpenBusSignage
